import Mathlib

/-!
Verification of the farewell-card web application (`teamcard/app.py`).

The development shallowly embeds the Python source:

* Python string helpers (`str.split()`, `str.strip()`, `str.splitlines()`,
  `str.replace`, `str.startswith`, `str.endswith`) are translated to
  executable functions on `List Char` / `String`.
* `reportlab`'s `canvas.stringWidth` is an external font-metric call; it is
  modelled as the sum of per-character advance widths for an arbitrary
  width table `w : Char → ℚ` (font metrics assign each glyph a nonnegative
  rational advance; theorems that need nonnegativity assume it).
* The filesystem and the PDF libraries are external effects; they are
  modelled by small oracle structures (`FileSystem`, `RenderOutcome`) and
  the handlers return the file names they would write or remove.
* `os.path.join` / `os.path.dirname` are translated from CPython's
  `posixpath.join` / `posixpath.dirname`.

All definitions are computable so concrete runs of the embedded code can be
checked by evaluation.
-/

/-! ### Python string primitives -/

/-- Python's default whitespace set for `str.split()` / `str.strip()`
(ASCII: space, tab, newline, carriage return, vertical tab, form feed). -/
def isPySpace (c : Char) : Bool :=
  c == ' ' || c == '\t' || c == '\n' || c == '\r' || c == '\x0b' || c == '\x0c'

/-- The line-break characters recognised by Python's `str.splitlines()`. -/
def isLineBreak (c : Char) : Bool :=
  c == '\n' || c == '\r' || c == '\x0b' || c == '\x0c' || c == '\x1c' || c == '\x1d' ||
    c == '\x1e' || c == '\x85' || c == '\u2028' || c == '\u2029'

/-- Core of `str.strip()`: drop leading and trailing whitespace characters. -/
def pyStripChars (cs : List Char) : List Char :=
  (((cs.dropWhile isPySpace).reverse).dropWhile isPySpace).reverse

/-- Python `s.strip()` (no argument: strips whitespace from both ends). -/
def pyStrip (s : String) : String := String.mk (pyStripChars s.data)

/-- Core of `str.split()` with no separator: split on runs of whitespace,
discarding empty pieces.  `acc` holds the characters of the word currently
being read, in reverse order. -/
def pySplitAux : List Char → List Char → List (List Char)
  | [], acc => if acc = [] then [] else [acc.reverse]
  | c :: rest, acc =>
    if isPySpace c then
      if acc = [] then pySplitAux rest [] else acc.reverse :: pySplitAux rest []
    else pySplitAux rest (c :: acc)

/-- Python `s.split()` (no argument). -/
def pySplit (s : String) : List String := (pySplitAux s.data []).map String.mk

/-- Core of `str.splitlines()`: split at line-break characters (treating
`"\r\n"` as a single break); a trailing break does not produce an extra
empty line.  `acc` holds the current line's characters in reverse order. -/
def pySplitlinesAux : List Char → List Char → List String
  | [], acc => if acc = [] then [] else [String.mk acc.reverse]
  | '\r' :: '\n' :: rest, acc => String.mk acc.reverse :: pySplitlinesAux rest []
  | c :: rest, acc =>
    if isLineBreak c then String.mk acc.reverse :: pySplitlinesAux rest []
    else pySplitlinesAux rest (c :: acc)

/-- Python `s.splitlines()`. -/
def pySplitlines (s : String) : List String := pySplitlinesAux s.data []

/-- Python `s.replace(old, new)` for single-character `old`/`new`
(the only form the source uses). -/
def pyReplaceChar (s : String) (old new : Char) : String :=
  String.mk (s.data.map fun c => if c = old then new else c)

/-- Python `s.startswith(pat)`. -/
def pyStartswith (s pat : String) : Bool := pat.data.isPrefixOf s.data

/-- Python `s.endswith(pat)`. -/
def pyEndswith (s pat : String) : Bool := pat.data.isSuffixOf s.data

/-- Python truthiness of an optional string (`None` and `""` are falsy). -/
def truthy : Option String → Bool
  | none => false
  | some s => s ≠ ""

/-! ### Layout constants (`app.py` lines 95-103)

The Python arithmetic on these quantities is float arithmetic; every value
involved is a small integer or ratio of small integers, where float
arithmetic is exact, so the embedding uses `ℚ`. -/

def message_left : ℚ := 230
def message_right : ℚ := 670
def message_top : ℚ := 700
def message_bottom : ℚ := 220
def max_width : ℚ := message_right - message_left
def line_height : ℚ := 18

/-- Python `int(q)` on a float value: truncation toward zero. -/
def pyInt (q : ℚ) : ℤ := if 0 ≤ q then ⌊q⌋ else ⌈q⌉

/-- `max_lines = int((message_top - message_bottom) / line_height)`
(`app.py` line 125). -/
def max_lines : ℕ := (pyInt ((message_top - message_bottom) / line_height)).toNat

/-! ### Text layout engine (`app.py` lines 106-123) -/

/-- Model of `c.stringWidth(s, "Helvetica", 12)`: the rendered width of `s`
under a per-character advance-width table `w`. -/
def stringWidth (w : Char → ℚ) (s : String) : ℚ := (s.data.map w).sum

/-- State of the greedy wrap loop: the flushed lines so far and the
accumulator `current_line`. -/
structure WrapState where
  lines : List String
  current_line : String

/-- One iteration of `for word in words` (`app.py` lines 112-119). -/
def wrapStep (w : Char → ℚ) (maxWidth : ℚ) (st : WrapState) (word : String) : WrapState :=
  let test_line := st.current_line ++ word ++ " "
  if stringWidth w test_line < maxWidth then
    { st with current_line := test_line }
  else
    { lines := if st.current_line ≠ "" then st.lines ++ [pyStrip st.current_line] else st.lines
      current_line := word ++ " " }

/-- The flush after a paragraph's word loop (`app.py` lines 120-121). -/
def flushLine (st : WrapState) : List String :=
  if st.current_line ≠ "" then st.lines ++ [pyStrip st.current_line] else st.lines

/-- Wrap of a single paragraph starting from an empty accumulator and no
flushed lines. -/
def wrapParagraph (w : Char → ℚ) (maxWidth : ℚ) (paragraph : String) : List String :=
  flushLine ((pySplit paragraph).foldl (wrapStep w maxWidth) ⟨[], ""⟩)

/-- The full wrap loop over `paragraphs = message.splitlines()`
(`app.py` lines 106-121): the flushed `lines` list is threaded through the
paragraphs, and `current_line` restarts at `""` for each paragraph. -/
def wrapMessage (w : Char → ℚ) (maxWidth : ℚ) (message : String) : List String :=
  (pySplitlines message).foldl
    (fun lines paragraph => flushLine ((pySplit paragraph).foldl (wrapStep w maxWidth) ⟨lines, ""⟩))
    []

/-! ### Message drawing loop (`app.py` lines 127-131) -/

/-- One drawn line: x-position, y-position, text. -/
abbrev DrawnLine := ℚ × ℚ × String

/-- The `for i, line in enumerate(lines[:max_lines])` loop body, including
the `break` when `current_y` falls below `message_bottom`. -/
def drawLoop : ℕ → List String → List DrawnLine
  | _, [] => []
  | i, line :: rest =>
    let current_y := message_top - i * line_height
    if current_y < message_bottom then []
    else (message_left, current_y, line) :: drawLoop (i + 1) rest

/-- The draw calls issued for a wrapped-line list. -/
def drawnLines (lines : List String) : List DrawnLine :=
  drawLoop 0 (lines.take max_lines)

/-- Placement rule stated by the specification: line `i` (0-based) is drawn
at `(message_left, message_top - i * line_height)`. -/
def specPlaced : ℕ → List String → List DrawnLine
  | _, [] => []
  | i, line :: rest => (message_left, message_top - i * line_height, line) :: specPlaced (i + 1) rest

/-! ### POST handler of `index` (`app.py` lines 67-164) -/

def MAX_MESSAGE_CHARS : ℕ := 2000

def TEMPLATE_PATH : String := "Farewell_Card.pdf"

def CARDS_FOLDER : String := "static/cards"

/-- `f"{name.replace(' ', '_').replace('/', '_')}_farewell_card.pdf"`
(`app.py` line 79). -/
def output_filename (name : String) : String :=
  pyReplaceChar (pyReplaceChar name ' ' '_') '/' '_' ++ "_farewell_card.pdf"

/-- Outcome of the external PDF work done inside the `try:` block before
`open(output_path, "wb")` is reached: reading the template raises
`FileNotFoundError`, some step raises another exception, or everything up
to and including serialisation of the overlay succeeds. -/
inductive RenderOutcome where
  | fileNotFound : RenderOutcome
  | fault (details : String) : RenderOutcome
  | ok : RenderOutcome
deriving DecidableEq

/-- Response of the POST branch of `index`. -/
inductive PostResult where
  | error (msg : String) : PostResult
  | redirectIndex : PostResult
deriving DecidableEq

/-- Result of a POST request together with the files written to the card
store by that request. -/
structure PostEffect where
  result : PostResult
  written : List String
deriving DecidableEq

/-- The POST branch of `index` (`app.py` lines 67-164): validation, then
the rendering attempt; the output file is written only when every step
before `open(output_path, "wb")` succeeded. -/
def handlePost (render : RenderOutcome) (rawName rawMessage : String) : PostEffect :=
  let name := pyStrip rawName
  let message := pyStrip rawMessage
  if name = "" ∨ message = "" then
    ⟨.error "Please enter both name and message.", []⟩
  else if MAX_MESSAGE_CHARS < message.length then
    ⟨.error "Message is too long. Please limit it to 2000 characters.", []⟩
  else
    match render with
    | .fileNotFound =>
        ⟨.error ("Error: Required PDF template '" ++ TEMPLATE_PATH ++ "' not found."), []⟩
    | .fault e => ⟨.error ("Error generating PDF. Details: " ++ e), []⟩
    | .ok => ⟨.redirectIndex, [output_filename name]⟩

/-- `sorted([f for f in os.listdir(CARDS_FOLDER) if f.endswith('.pdf')])`
(`app.py` lines 166 and 179), given the directory's entries. -/
def listCards (entries : List String) : List String :=
  List.insertionSort (· ≤ ·) (entries.filter fun f => pyEndswith f ".pdf")

/-! ### Admin gate (`app.py` lines 28-57 and 173-181) -/

/-- The two environment variables read at startup (`None` when unset). -/
structure Env where
  admin_password : Option String
  admin_password_hash : Option String

/-- The module-level globals after the startup block. -/
structure Config where
  admin_password : Option String
  admin_password_hash : Option String

/-- The startup block (`app.py` lines 32-57).  `gen` models
`werkzeug.security.generate_password_hash` (salted PBKDF2; its exact value
is irrelevant to the control flow). -/
def startupConfig (gen : String → String) (env : Env) : Config :=
  if truthy env.admin_password_hash then
    { admin_password := env.admin_password, admin_password_hash := env.admin_password_hash }
  else
    match env.admin_password with
    | some pw =>
        if pw = "" then
          { admin_password := some pw, admin_password_hash := none }
        else if pyStartswith pw "pbkdf2:sha256:" then
          { admin_password := none, admin_password_hash := some pw }
        else
          { admin_password := none, admin_password_hash := some (gen pw) }
    | none => { admin_password := none, admin_password_hash := none }

/-- The POST branch of `admin` (`app.py` lines 175-180): access is granted
exactly when `password != ADMIN_PASSWORD` is false.  In Python a string
never equals `None`, so a `None` `ADMIN_PASSWORD` rejects everything. -/
def adminPostDecision (cfg : Config) (password : String) : Bool :=
  match cfg.admin_password with
  | some p => password == p
  | none => false

/-! ### Delete endpoint (`app.py` lines 183-188) -/

/-- CPython `posixpath.join(a, b)` for two components. -/
def posixJoin (a b : String) : String :=
  if pyStartswith b "/" then b
  else if a = "" ∨ pyEndswith a "/" then a ++ b
  else a ++ "/" ++ b

/-- Core of CPython `posixpath.dirname`: everything up to the last `'/'`,
with trailing slashes stripped unless the result would be all slashes.
Computed from the reversed character list: `headR` is the reversed prefix
of `p` up to and including the last `'/'` (empty when `p` has no slash). -/
def dirnameChars (p : List Char) : List Char :=
  if (p.reverse.dropWhile fun c => !(c == '/')) ≠ [] ∧
      ¬((p.reverse.dropWhile fun c => !(c == '/')).all fun c => c == '/') then
    ((p.reverse.dropWhile fun c => !(c == '/')).dropWhile fun c => c == '/').reverse
  else (p.reverse.dropWhile fun c => !(c == '/')).reverse

/-- CPython `posixpath.dirname`. -/
def posixDirname (p : String) : String := String.mk (dirnameChars p.data)

/-- The characters of a path after its last `'/'` (the whole path when it
has no slash). -/
def lastSegment (p : String) : List Char :=
  (p.data.reverse.takeWhile (fun c => !(c == '/'))).reverse

/-- `p.split('/')` on characters (used to talk about path components). -/
def slashSplit : List Char → List (List Char)
  | [] => [[]]
  | c :: rest =>
    match slashSplit rest with
    | [] => if c = '/' then [[], []] else [[c]]
    | w :: ws => if c = '/' then [] :: w :: ws else (c :: w) :: ws

/-- Oracle for the two `os.path` queries the delete handler makes. -/
structure FileSystem where
  pathExists : String → Bool
  isFile : String → Bool

/-- POSIX filesystem fact the safety argument needs: a *regular file's*
path never has an empty final component (trailing slash), nor `"."` or
`".."` as final component — such paths resolve to directories whenever
they exist at all. -/
def RealisticFS (fs : FileSystem) : Prop :=
  ∀ p : String, fs.isFile p = true →
    lastSegment p ≠ [] ∧ lastSegment p ≠ ['.'] ∧ lastSegment p ≠ ['.', '.']

/-- `delete_card` (`app.py` lines 183-188): returns the path removed by
`os.remove`, or `none` when the guard fails and the request is a no-op. -/
def delete_card (fs : FileSystem) (filename : String) : Option String :=
  let filepath := posixJoin CARDS_FOLDER filename
  if fs.pathExists filepath ∧ fs.isFile filepath ∧ posixDirname filepath = CARDS_FOLDER then
    some filepath
  else none

/-! ### Proof infrastructure definitions -/

/-- A word as produced by `str.split()`: nonempty and whitespace-free. -/
def wordOk (x : String) : Prop := x.data ≠ [] ∧ ∀ c ∈ x.data, isPySpace c = false

/-- The accumulator string built by appending each word plus one trailing
space (the canonical shape of `current_line` during the wrap loop). -/
def joinWords (ws : List String) : String :=
  String.mk (ws.flatMap fun x => x.data ++ [' '])

/-- Zero-width table: a degenerate but legal font metric, used to evaluate
the wrap loop on concrete inputs. -/
def w0 : Char → ℚ := fun _ => 0

/-- A filesystem containing exactly one regular file, used to evaluate the
delete handler on concrete inputs. -/
def fsOne : FileSystem :=
  ⟨fun p => p = "static/cards/ok.pdf", fun p => p = "static/cards/ok.pdf"⟩

/-- A stand-in for `generate_password_hash`, used to evaluate the startup
block on concrete inputs (the admin route never consults its output). -/
def genHash : String → String := fun pw => "pbkdf2:sha256:600000$salt$" ++ pw

/-! ### String plumbing lemmas -/

theorem string_data_append (a b : String) : (a ++ b).data = a.data ++ b.data := by
  cases a; cases b; rfl

theorem string_mk_data (s : String) : String.mk s.data = s := rfl

theorem string_ne_empty_iff (s : String) : s ≠ "" ↔ s.data ≠ [] := by
  constructor
  · intro h hd
    exact h (String.ext hd)
  · intro h hd
    exact h (hd ▸ rfl)

/-! ### `pySplit` lemmas -/

theorem pySplitAux_cons_space {c : Char} (hc : isPySpace c = true) (rest acc : List Char) :
    pySplitAux (c :: rest) acc =
      if acc = [] then pySplitAux rest [] else acc.reverse :: pySplitAux rest [] := by
  simp [pySplitAux, hc]

theorem pySplitAux_cons_nonspace {c : Char} (hc : isPySpace c = false) (rest acc : List Char) :
    pySplitAux (c :: rest) acc = pySplitAux rest (c :: acc) := by
  simp [pySplitAux, hc]

theorem pySplitAux_word (wchars : List Char) (hw : ∀ c ∈ wchars, isPySpace c = false) :
    ∀ (rest acc : List Char),
      pySplitAux (wchars ++ rest) acc = pySplitAux rest (wchars.reverse ++ acc) := by
  induction wchars with
  | nil => intro rest acc; simp
  | cons c cs ih =>
    intro rest acc
    have hc : isPySpace c = false := hw c (by simp)
    have hcs : ∀ d ∈ cs, isPySpace d = false := fun d hd => hw d (by simp [hd])
    rw [List.cons_append, pySplitAux_cons_nonspace hc, ih hcs rest (c :: acc)]
    simp

theorem pySplitAux_all_space (cs : List Char) (h : ∀ c ∈ cs, isPySpace c = true) :
    ∀ acc, pySplitAux cs acc = if acc = [] then [] else [acc.reverse] := by
  induction cs with
  | nil => intro acc; rfl
  | cons c rest ih =>
    intro acc
    have hc : isPySpace c = true := h c (by simp)
    have hrest : ∀ d ∈ rest, isPySpace d = true := fun d hm => h d (by simp [hm])
    rw [pySplitAux_cons_space hc, ih hrest]
    by_cases hacc : acc = [] <;> simp [hacc]

theorem pySplitAux_append_space (tail : List Char) (h : ∀ c ∈ tail, isPySpace c = true) :
    ∀ (cs acc : List Char), pySplitAux (cs ++ tail) acc = pySplitAux cs acc := by
  intro cs
  induction cs with
  | nil =>
    intro acc
    rw [List.nil_append, pySplitAux_all_space tail h acc]
    rfl
  | cons c rest ih =>
    intro acc
    cases hc : isPySpace c
    · rw [List.cons_append, pySplitAux_cons_nonspace hc, pySplitAux_cons_nonspace hc, ih]
    · rw [List.cons_append, pySplitAux_cons_space hc, pySplitAux_cons_space hc, ih]

theorem pySplitAux_dropWhile (cs : List Char) :
    pySplitAux (cs.dropWhile isPySpace) [] = pySplitAux cs [] := by
  induction cs with
  | nil => rfl
  | cons c rest ih =>
    cases hc : isPySpace c
    · rw [List.dropWhile_cons_of_neg (by simp [hc])]
    · rw [List.dropWhile_cons_of_pos hc, ih, pySplitAux_cons_space hc]
      simp

theorem pySplitChars_strip (cs : List Char) :
    pySplitAux (pyStripChars cs) [] = pySplitAux cs [] := by
  unfold pyStripChars
  set m := cs.dropWhile isPySpace with hm
  have hdecomp : m = (m.reverse.dropWhile isPySpace).reverse ++
      (m.reverse.takeWhile isPySpace).reverse := by
    have h1 := List.takeWhile_append_dropWhile isPySpace m.reverse
    calc m = m.reverse.reverse := by rw [List.reverse_reverse]
    _ = (m.reverse.takeWhile isPySpace ++ m.reverse.dropWhile isPySpace).reverse := by rw [h1]
    _ = _ := by rw [List.reverse_append]
  have htail : ∀ c ∈ (m.reverse.takeWhile isPySpace).reverse, isPySpace c = true := by
    intro c hmem
    rw [List.mem_reverse] at hmem
    exact List.mem_takeWhile_imp hmem
  calc pySplitAux (m.reverse.dropWhile isPySpace).reverse []
      = pySplitAux ((m.reverse.dropWhile isPySpace).reverse ++
          (m.reverse.takeWhile isPySpace).reverse) [] := by
        rw [pySplitAux_append_space _ htail]
  _ = pySplitAux m [] := by rw [← hdecomp]
  _ = pySplitAux cs [] := pySplitAux_dropWhile cs

theorem pySplit_pyStrip (s : String) : pySplit (pyStrip s) = pySplit s := by
  show (pySplitAux (pyStripChars s.data) []).map String.mk
      = (pySplitAux s.data []).map String.mk
  rw [pySplitChars_strip]

theorem pySplitAux_words_ok : ∀ (cs acc : List Char), (∀ c ∈ acc, isPySpace c = false) →
    ∀ x ∈ pySplitAux cs acc, x ≠ [] ∧ ∀ c ∈ x, isPySpace c = false := by
  intro cs
  induction cs with
  | nil =>
    intro acc hacc x hx
    by_cases h : acc = []
    · simp [pySplitAux, h] at hx
    · simp only [pySplitAux, if_neg h, List.mem_singleton] at hx
      subst hx
      refine ⟨by simpa using h, ?_⟩
      intro c hc
      exact hacc c (List.mem_reverse.mp hc)
  | cons c rest ih =>
    intro acc hacc x hx
    cases hc : isPySpace c
    · rw [pySplitAux_cons_nonspace hc] at hx
      refine ih (c :: acc) ?_ x hx
      intro d hd
      rcases List.mem_cons.mp hd with h | h
      · subst h; exact hc
      · exact hacc d h
    · rw [pySplitAux_cons_space hc] at hx
      by_cases h : acc = []
      · rw [if_pos h] at hx
        exact ih [] (by simp) x hx
      · rw [if_neg h] at hx
        rcases List.mem_cons.mp hx with h1 | h1
        · subst h1
          refine ⟨by simpa using h, ?_⟩
          intro d hd
          exact hacc d (List.mem_reverse.mp hd)
        · exact ih [] (by simp) x h1

theorem pySplit_words_ok (s : String) : ∀ x ∈ pySplit s, wordOk x := by
  intro x hx
  unfold pySplit at hx
  rcases List.mem_map.mp hx with ⟨cs, hcs, rfl⟩
  have h := pySplitAux_words_ok s.data [] (by simp) cs hcs
  exact ⟨h.1, h.2⟩

/-! ### `joinWords` lemmas -/

theorem joinWords_nil : joinWords [] = "" := rfl

theorem joinWords_cons_data (x : String) (rest : List String) :
    (joinWords (x :: rest)).data = x.data ++ (' ' :: (joinWords rest).data) := by
  simp [joinWords]

theorem joinWords_cons_ne_empty (x : String) (rest : List String) :
    joinWords (x :: rest) ≠ "" := by
  rw [string_ne_empty_iff, joinWords_cons_data]
  simp

theorem space_data : (" " : String).data = [' '] := rfl

theorem joinWords_append_word (cs : List String) (word : String) :
    joinWords cs ++ word ++ " " = joinWords (cs ++ [word]) := by
  apply String.ext
  rw [string_data_append, string_data_append, space_data]
  simp [joinWords]

theorem joinWords_singleton (word : String) : word ++ " " = joinWords [word] := by
  apply String.ext
  rw [string_data_append, space_data]
  simp [joinWords]

theorem pySplitAux_joinWords : ∀ (ws : List String), (∀ x ∈ ws, wordOk x) →
    pySplitAux (joinWords ws).data [] = ws.map String.data := by
  intro ws
  induction ws with
  | nil => intro _; rfl
  | cons x rest ih =>
    intro h
    have hx : wordOk x := h x (by simp)
    have hrest : ∀ y ∈ rest, wordOk y := fun y hy => h y (by simp [hy])
    rw [joinWords_cons_data, pySplitAux_word x.data hx.2,
      pySplitAux_cons_space (by simp [isPySpace])]
    rw [if_neg (by simp [hx.1])]
    rw [ih hrest]
    simp

theorem pySplit_joinWords (ws : List String) (h : ∀ x ∈ ws, wordOk x) :
    pySplit (joinWords ws) = ws := by
  unfold pySplit
  rw [pySplitAux_joinWords ws h, List.map_map]
  have hid : (String.mk ∘ String.data) = id := funext fun x => rfl
  rw [hid, List.map_id]

theorem pySplit_pyStrip_joinWords (ws : List String) (h : ∀ x ∈ ws, wordOk x) :
    pySplit (pyStrip (joinWords ws)) = ws := by
  rw [pySplit_pyStrip, pySplit_joinWords ws h]

/-! ### Width lemmas -/

theorem pyStripChars_sublist (cs : List Char) : (pyStripChars cs).Sublist cs := by
  unfold pyStripChars
  have h1 : ((cs.dropWhile isPySpace).reverse.dropWhile isPySpace).Sublist
      (cs.dropWhile isPySpace).reverse := List.dropWhile_sublist _
  have h2 : (((cs.dropWhile isPySpace).reverse.dropWhile isPySpace).reverse).Sublist
      (cs.dropWhile isPySpace) := by
    have := h1.reverse
    rwa [List.reverse_reverse] at this
  exact h2.trans (List.dropWhile_sublist _)

theorem stringWidth_pyStrip_le (w : Char → ℚ) (hw : ∀ c, 0 ≤ w c) (s : String) :
    stringWidth w (pyStrip s) ≤ stringWidth w s := by
  unfold stringWidth
  apply List.Sublist.sum_le_sum
  · exact List.Sublist.map w (pyStripChars_sublist s.data)
  · intro a ha
    rcases List.mem_map.mp ha with ⟨c, _, rfl⟩
    exact hw c

/-! ### Wrap loop lemmas -/

theorem wrapStep_accept {w : Char → ℚ} {mw : ℚ} {L : List String} {cur word : String}
    (h : stringWidth w (cur ++ word ++ " ") < mw) :
    wrapStep w mw ⟨L, cur⟩ word = ⟨L, cur ++ word ++ " "⟩ := by
  simp [wrapStep, h]

theorem wrapStep_reject_empty {w : Char → ℚ} {mw : ℚ} {L : List String} {cur word : String}
    (h : ¬ stringWidth w (cur ++ word ++ " ") < mw) (h' : cur = "") :
    wrapStep w mw ⟨L, cur⟩ word = ⟨L, word ++ " "⟩ := by
  simp [wrapStep, h, h']

theorem wrapStep_reject_flush {w : Char → ℚ} {mw : ℚ} {L : List String} {cur word : String}
    (h : ¬ stringWidth w (cur ++ word ++ " ") < mw) (h' : cur ≠ "") :
    wrapStep w mw ⟨L, cur⟩ word = ⟨L ++ [pyStrip cur], word ++ " "⟩ := by
  simp [wrapStep, h, h']

theorem wrap_foldl_shift (w : Char → ℚ) (mw : ℚ) : ∀ (ws : List String) (st : WrapState),
    (ws.foldl (wrapStep w mw) st).lines
        = st.lines ++ (ws.foldl (wrapStep w mw) ⟨[], st.current_line⟩).lines
      ∧ (ws.foldl (wrapStep w mw) st).current_line
        = (ws.foldl (wrapStep w mw) ⟨[], st.current_line⟩).current_line := by
  intro ws
  induction ws with
  | nil => intro st; exact ⟨by simp, rfl⟩
  | cons word rest ih =>
    intro st
    obtain ⟨L, cur⟩ := st
    simp only [List.foldl_cons]
    by_cases h : stringWidth w (cur ++ word ++ " ") < mw
    · rw [wrapStep_accept h, wrapStep_accept (L := []) h]
      exact ih ⟨L, cur ++ word ++ " "⟩
    · by_cases h' : cur = ""
      · rw [wrapStep_reject_empty h h', wrapStep_reject_empty (L := []) h h']
        exact ih ⟨L, word ++ " "⟩
      · rw [wrapStep_reject_flush h h', wrapStep_reject_flush (L := []) h h']
        obtain ⟨a1, a2⟩ := ih ⟨L ++ [pyStrip cur], word ++ " "⟩
        obtain ⟨b1, b2⟩ := ih ⟨[] ++ [pyStrip cur], word ++ " "⟩
        exact ⟨by rw [a1, b1]; simp, by rw [a2, b2]⟩

theorem wrapPara_from (w : Char → ℚ) (mw : ℚ) (L : List String) (p : String) :
    flushLine ((pySplit p).foldl (wrapStep w mw) ⟨L, ""⟩) = L ++ wrapParagraph w mw p := by
  unfold wrapParagraph flushLine
  obtain ⟨h1, h2⟩ := wrap_foldl_shift w mw (pySplit p) ⟨L, ""⟩
  rw [h1, h2]
  by_cases h : ((pySplit p).foldl (wrapStep w mw) ⟨[], ""⟩).current_line = "" <;> simp [h]

theorem wrap_paras_foldl (w : Char → ℚ) (mw : ℚ) : ∀ (ps : List String) (L : List String),
    ps.foldl (fun lines paragraph =>
        flushLine ((pySplit paragraph).foldl (wrapStep w mw) ⟨lines, ""⟩)) L
      = L ++ ps.flatMap (wrapParagraph w mw) := by
  intro ps
  induction ps with
  | nil => intro L; simp
  | cons p rest ih =>
    intro L
    simp only [List.foldl_cons]
    rw [wrapPara_from, ih, List.flatMap_cons, List.append_assoc]

theorem wrapMessage_eq_flatMap (w : Char → ℚ) (mw : ℚ) (msg : String) :
    wrapMessage w mw msg = (pySplitlines msg).flatMap (wrapParagraph w mw) := by
  unfold wrapMessage
  rw [wrap_paras_foldl]
  simp

theorem wrap_width_invariant (w : Char → ℚ) (mw : ℚ) (hw : ∀ c, 0 ≤ w c) :
    ∀ (ws : List String) (st : WrapState),
      (∀ x ∈ ws, stringWidth w (x ++ " ") < mw) →
      (∀ l ∈ st.lines, stringWidth w l < mw) →
      (st.current_line = "" ∨ stringWidth w st.current_line < mw) →
      ∀ l ∈ flushLine (ws.foldl (wrapStep w mw) st), stringWidth w l < mw := by
  intro ws
  induction ws with
  | nil =>
    intro st _ hlines hcur l hl
    obtain ⟨L, cur⟩ := st
    rw [List.foldl_nil] at hl
    unfold flushLine at hl
    by_cases h : cur = ""
    · rw [if_neg (by simp [h])] at hl
      exact hlines l hl
    · rw [if_pos h] at hl
      rcases List.mem_append.mp hl with h1 | h1
      · exact hlines l h1
      · rw [List.mem_singleton] at h1
        subst h1
        rcases hcur with hc | hc
        · exact absurd hc h
        · exact lt_of_le_of_lt (stringWidth_pyStrip_le w hw cur) hc
  | cons word rest ih =>
    intro st hws hlines hcur
    obtain ⟨L, cur⟩ := st
    simp only [List.foldl_cons]
    have hword : stringWidth w (word ++ " ") < mw := hws word (by simp)
    have hrest : ∀ x ∈ rest, stringWidth w (x ++ " ") < mw := fun x hx => hws x (by simp [hx])
    by_cases h : stringWidth w (cur ++ word ++ " ") < mw
    · rw [wrapStep_accept h]
      exact ih ⟨L, cur ++ word ++ " "⟩ hrest hlines (Or.inr h)
    · by_cases h' : cur = ""
      · rw [wrapStep_reject_empty h h']
        exact ih ⟨L, word ++ " "⟩ hrest hlines (Or.inr hword)
      · rw [wrapStep_reject_flush h h']
        apply ih ⟨L ++ [pyStrip cur], word ++ " "⟩ hrest ?_ (Or.inr hword)
        intro l hl
        rcases List.mem_append.mp hl with h1 | h1
        · exact hlines l h1
        · rw [List.mem_singleton] at h1
          subst h1
          rcases hcur with hc | hc
          · exact absurd hc h'
          · exact lt_of_le_of_lt (stringWidth_pyStrip_le w hw cur) hc

theorem wrap_words_invariant (w : Char → ℚ) (mw : ℚ) :
    ∀ (ws : List String), (∀ x ∈ ws, wordOk x) → ∀ (cs : List String), (∀ x ∈ cs, wordOk x) →
      ∀ (L : List String),
      (flushLine (ws.foldl (wrapStep w mw) ⟨L, joinWords cs⟩)).flatMap pySplit
        = L.flatMap pySplit ++ cs ++ ws := by
  intro ws
  induction ws with
  | nil =>
    intro _ cs hcs L
    rw [List.foldl_nil]
    unfold flushLine
    cases cs with
    | nil =>
      rw [if_neg (by simp [joinWords_nil])]
      simp
    | cons a b =>
      rw [if_pos (joinWords_cons_ne_empty a b)]
      rw [List.flatMap_append]
      simp [pySplit_pyStrip_joinWords (a :: b) hcs]
  | cons word rest ih =>
    intro hws cs hcs L
    simp only [List.foldl_cons]
    have hword : wordOk word := hws word (by simp)
    have hrest : ∀ x ∈ rest, wordOk x := fun x hx => hws x (by simp [hx])
    have hwordl : ∀ x ∈ [word], wordOk x := by
      intro x hx
      rw [List.mem_singleton] at hx
      subst hx
      exact hword
    by_cases h : stringWidth w (joinWords cs ++ word ++ " ") < mw
    · rw [wrapStep_accept h, joinWords_append_word]
      have hcs' : ∀ x ∈ cs ++ [word], wordOk x := by
        intro x hx
        rcases List.mem_append.mp hx with h1 | h1
        · exact hcs x h1
        · exact hwordl x h1
      rw [ih hrest (cs ++ [word]) hcs' L]
      simp
    · cases cs with
      | nil =>
        rw [wrapStep_reject_empty h joinWords_nil, joinWords_singleton]
        rw [ih hrest [word] hwordl L]
        simp
      | cons a b =>
        rw [wrapStep_reject_flush h (joinWords_cons_ne_empty a b), joinWords_singleton]
        rw [ih hrest [word] hwordl (L ++ [pyStrip (joinWords (a :: b))])]
        rw [List.flatMap_append]
        simp [pySplit_pyStrip_joinWords (a :: b) hcs]

theorem wrapParagraph_flatMap (w : Char → ℚ) (mw : ℚ) (p : String) :
    (wrapParagraph w mw p).flatMap pySplit = pySplit p := by
  unfold wrapParagraph
  rw [show (⟨[], ""⟩ : WrapState) = ⟨[], joinWords []⟩ from rfl]
  rw [wrap_words_invariant w mw (pySplit p) (pySplit_words_ok p) [] (by simp) []]
  simp

/-! ### Claims C1, C2, C7 -/

theorem stringWidth_w0 (s : String) : stringWidth w0 s = 0 := by
  unfold stringWidth w0
  generalize s.data = l
  induction l with
  | nil => rfl
  | cons c cs ih => simpa using ih

theorem w0_lt_max_width : (0 : ℚ) < max_width := by
  norm_num [max_width, message_right, message_left]

/-- C1: for every input message in which no single word has rendered width
(measured with the one trailing space appended by the loop) at or above
`max_width = message_right - message_left`, every line produced by the
greedy word-wrap loop has rendered width strictly less than `max_width`. -/
theorem wrap_lines_width_lt_max_width (w : Char → ℚ) (msg : String)
    (hw : ∀ c, 0 ≤ w c)
    (hwords : ∀ p ∈ pySplitlines msg, ∀ word ∈ pySplit p,
      stringWidth w (word ++ " ") < max_width) :
    ∀ line ∈ wrapMessage w max_width msg, stringWidth w line < max_width := by
  intro line hline
  rw [wrapMessage_eq_flatMap] at hline
  rcases List.mem_flatMap.mp hline with ⟨p, hp, hlp⟩
  exact wrap_width_invariant w max_width hw (pySplit p) ⟨[], ""⟩ (hwords p hp)
    (by simp) (Or.inl rfl) line hlp

theorem wrapMessage_w0_hi : wrapMessage w0 max_width "hi" = ["hi"] := by
  show flushLine ((["hi"] : List String).foldl (wrapStep w0 max_width) ⟨[], ""⟩) = ["hi"]
  rw [List.foldl_cons, wrapStep_accept (by rw [stringWidth_w0]; exact w0_lt_max_width),
    List.foldl_nil]
  decide

/-- Witness for C1 at the message `"hi"` with the zero-width table. -/
theorem wrap_lines_width_lt_max_width_witness : stringWidth w0 "hi" < max_width := by
  have h := wrap_lines_width_lt_max_width w0 "hi" (fun _ => le_refl 0)
    (by
      intro p _ word _
      rw [stringWidth_w0]
      exact w0_lt_max_width)
  exact h "hi" (by rw [wrapMessage_w0_hi]; exact List.mem_singleton.mpr rfl)

/-- C2: for every paragraph, concatenating the whitespace-split words of the
wrapped lines produced for it, in order, yields exactly the paragraph's
original whitespace-split word sequence. -/
theorem wrapParagraph_preserves_words (w : Char → ℚ) (mw : ℚ) (p : String) :
    (wrapParagraph w mw p).flatMap pySplit = pySplit p :=
  wrapParagraph_flatMap w mw p

theorem wrapParagraph_w0_x : wrapParagraph w0 max_width "x" = ["x"] := by
  show flushLine ((["x"] : List String).foldl (wrapStep w0 max_width) ⟨[], ""⟩) = ["x"]
  rw [List.foldl_cons, wrapStep_accept (by rw [stringWidth_w0]; exact w0_lt_max_width),
    List.foldl_nil]
  decide

/-- C7: the wrap splits the message into paragraphs first and wraps each
independently (so the produced lines are the concatenation, in order, of the
per-paragraph wraps), an empty paragraph contributes no line, and every word
of a wrapped line is a word of that line's source paragraph. -/
theorem wrap_respects_paragraphs (w : Char → ℚ) (mw : ℚ) (msg : String) :
    wrapMessage w mw msg = (pySplitlines msg).flatMap (wrapParagraph w mw)
    ∧ wrapParagraph w mw "" = []
    ∧ ∀ p line, line ∈ wrapParagraph w mw p → ∀ word ∈ pySplit line, word ∈ pySplit p := by
  refine ⟨wrapMessage_eq_flatMap w mw msg, rfl, ?_⟩
  intro p line hline word hword
  have h := wrapParagraph_flatMap w mw p
  rw [← h]
  exact List.mem_flatMap.mpr ⟨line, hline, hword⟩

/-- Witness for C7 at the paragraph `"x"` with the zero-width table. -/
theorem wrap_respects_paragraphs_witness :
    wrapMessage w0 max_width "x" = (pySplitlines "x").flatMap (wrapParagraph w0 max_width)
    ∧ "x" ∈ pySplit "x" := by
  obtain ⟨h1, _, h3⟩ := wrap_respects_paragraphs w0 max_width "x"
  refine ⟨h1, ?_⟩
  exact h3 "x" "x" (by rw [wrapParagraph_w0_x]; exact List.mem_singleton.mpr rfl) "x" (by decide)

/-! ### Claim C5 -/

theorem floor_box : ⌊(message_top - message_bottom) / line_height⌋ = 26 := by
  unfold message_top message_bottom line_height
  rw [Int.floor_eq_iff]
  constructor <;> norm_num

theorem max_lines_eq : max_lines = 26 := by
  unfold max_lines pyInt
  rw [if_pos (by unfold message_top message_bottom line_height; norm_num), floor_box]
  rfl

theorem drawLoop_eq_specPlaced : ∀ (ls : List String) (i : ℕ), i + ls.length ≤ 26 →
    drawLoop i ls = specPlaced i ls := by
  intro ls
  induction ls with
  | nil => intro i _; rfl
  | cons line rest ih =>
    intro i hi
    rw [List.length_cons] at hi
    have hy : ¬ (message_top - (i : ℚ) * line_height < message_bottom) := by
      have hi' : (i : ℚ) ≤ 25 := by exact_mod_cast (by omega : i ≤ 25)
      unfold message_top message_bottom line_height
      intro hcon
      linarith
    simp only [drawLoop, specPlaced]
    rw [if_neg hy, ih (i + 1) (by omega)]

theorem specPlaced_length : ∀ (ls : List String) (i : ℕ),
    (specPlaced i ls).length = ls.length := by
  intro ls
  induction ls with
  | nil => intro i; rfl
  | cons line rest ih => intro i; simp [specPlaced, ih]

/-- C5: the draw loop emits at most `max_lines = ⌊(message_top - message_bottom) / line_height⌋`
lines; the `i`-th drawn line (0-based) sits at `(message_left, message_top - i * line_height)`;
lines beyond the bound are silently dropped (the loop is total and just returns the drawn
prefix — no error value exists). -/
theorem drawnLines_bounded_and_placed (lines : List String) :
    (max_lines : ℤ) = ⌊(message_top - message_bottom) / line_height⌋
    ∧ drawnLines lines = specPlaced 0 (lines.take max_lines)
    ∧ (drawnLines lines).length ≤ max_lines := by
  have h26 := max_lines_eq
  have heq : drawnLines lines = specPlaced 0 (lines.take max_lines) := by
    unfold drawnLines
    apply drawLoop_eq_specPlaced
    rw [h26, List.length_take, Nat.zero_add]
    exact min_le_left _ _
  refine ⟨by rw [h26, floor_box]; rfl, heq, ?_⟩
  rw [heq, specPlaced_length, List.length_take]
  exact min_le_left _ _

/-! ### Claims C4, C9, C8 -/

/-- C4: a POST whose trimmed name is empty, whose trimmed message is empty,
or whose trimmed message exceeds 2000 characters yields a validation error
and writes no output file, whatever the rendering environment would do. -/
theorem invalid_submission_writes_nothing (render : RenderOutcome) (rawName rawMessage : String)
    (hbad : pyStrip rawName = "" ∨ pyStrip rawMessage = ""
      ∨ MAX_MESSAGE_CHARS < (pyStrip rawMessage).length) :
    (∃ e, (handlePost render rawName rawMessage).result = PostResult.error e)
    ∧ (handlePost render rawName rawMessage).written = [] := by
  simp only [handlePost]
  rcases hbad with h | h | h
  · rw [if_pos (Or.inl h)]
    exact ⟨⟨_, rfl⟩, rfl⟩
  · rw [if_pos (Or.inr h)]
    exact ⟨⟨_, rfl⟩, rfl⟩
  · by_cases h0 : pyStrip rawName = "" ∨ pyStrip rawMessage = ""
    · rw [if_pos h0]
      exact ⟨⟨_, rfl⟩, rfl⟩
    · rw [if_neg h0, if_pos h]
      exact ⟨⟨_, rfl⟩, rfl⟩

/-- Witness for C4: empty name. -/
theorem invalid_submission_writes_nothing_witness :
    (∃ e, (handlePost RenderOutcome.ok "" "hi").result = PostResult.error e)
    ∧ (handlePost RenderOutcome.ok "" "hi").written = [] :=
  invalid_submission_writes_nothing RenderOutcome.ok "" "hi" (Or.inl (by decide))

/-- C9: for a submission that passes validation, a missing template yields the
"template not found" error and no write; any other fault raised before the
output file is opened yields the generic rendering error and no write; a file
is written only when every step before the `open` succeeded. -/
theorem render_failure_writes_nothing (render : RenderOutcome) (rawName rawMessage : String)
    (hname : pyStrip rawName ≠ "") (hmsg : pyStrip rawMessage ≠ "")
    (hlen : (pyStrip rawMessage).length ≤ MAX_MESSAGE_CHARS) :
    (render = RenderOutcome.fileNotFound →
        (handlePost render rawName rawMessage).result
          = PostResult.error ("Error: Required PDF template '" ++ TEMPLATE_PATH ++ "' not found.")
        ∧ (handlePost render rawName rawMessage).written = [])
    ∧ (∀ e, render = RenderOutcome.fault e →
        (handlePost render rawName rawMessage).result
          = PostResult.error ("Error generating PDF. Details: " ++ e)
        ∧ (handlePost render rawName rawMessage).written = [])
    ∧ ((handlePost render rawName rawMessage).written ≠ [] → render = RenderOutcome.ok) := by
  have hv : ¬ (pyStrip rawName = "" ∨ pyStrip rawMessage = "") := by
    rintro (h | h)
    · exact hname h
    · exact hmsg h
  have hnl : ¬ MAX_MESSAGE_CHARS < (pyStrip rawMessage).length := not_lt.mpr hlen
  refine ⟨?_, ?_, ?_⟩ <;> simp only [handlePost, if_neg hv, if_neg hnl]
  · rintro rfl
    exact ⟨rfl, rfl⟩
  · rintro e rfl
    exact ⟨rfl, rfl⟩
  · cases render with
    | fileNotFound => intro hcon; exact absurd rfl hcon
    | fault e => intro hcon; exact absurd rfl hcon
    | ok => intro _; rfl

/-- Witness for C9: missing template with a valid submission. -/
theorem render_failure_writes_nothing_witness :
    (handlePost RenderOutcome.fileNotFound "Ada" "bye").result
      = PostResult.error ("Error: Required PDF template '" ++ TEMPLATE_PATH ++ "' not found.")
    ∧ (handlePost RenderOutcome.fileNotFound "Ada" "bye").written = [] :=
  (render_failure_writes_nothing RenderOutcome.fileNotFound "Ada" "bye" (by decide) (by decide)
    (by decide)).1 rfl

theorem output_filename_endswith_pdf (name : String) :
    pyEndswith (output_filename name) ".pdf" = true := by
  unfold pyEndswith output_filename
  rw [string_data_append, List.isSuffixOf_iff_suffix]
  exact List.IsSuffix.trans (by decide) (List.suffix_append _ _)

theorem mem_listCards {x : String} {entries : List String} (hx : x ∈ entries)
    (hpdf : pyEndswith x ".pdf" = true) : x ∈ listCards entries := by
  unfold listCards
  rw [(List.perm_insertionSort _ _).mem_iff]
  exact List.mem_filter.mpr ⟨hx, hpdf⟩

theorem listCards_sorted (entries : List String) : List.Sorted (· ≤ ·) (listCards entries) :=
  List.sorted_insertionSort _ _

/-- C8: the output file name is the submitter's trimmed name with spaces and
slashes replaced by underscores plus the fixed suffix (`"Ada Lovelace"` gives
`"Ada_Lovelace_farewell_card.pdf"`); a successful valid submission writes
exactly that file; and a directory listing containing it lists it, sorted
lexicographically. -/
theorem output_filename_and_listing (entries : List String) (name : String)
    (hmem : output_filename name ∈ entries) :
    output_filename "Ada Lovelace" = "Ada_Lovelace_farewell_card.pdf"
    ∧ output_filename name ∈ listCards entries
    ∧ List.Sorted (· ≤ ·) (listCards entries)
    ∧ ∀ rawName rawMessage, pyStrip rawName ≠ "" → pyStrip rawMessage ≠ "" →
        (pyStrip rawMessage).length ≤ MAX_MESSAGE_CHARS →
        (handlePost RenderOutcome.ok rawName rawMessage).written
          = [output_filename (pyStrip rawName)] := by
  refine ⟨by decide, mem_listCards hmem (output_filename_endswith_pdf name),
    listCards_sorted entries, ?_⟩
  intro rawName rawMessage hname hmsg hlen
  have hv : ¬ (pyStrip rawName = "" ∨ pyStrip rawMessage = "") := by
    rintro (h | h)
    · exact hname h
    · exact hmsg h
  simp only [handlePost, if_neg hv, if_neg (not_lt.mpr hlen)]

/-- Witness for C8 at `"Ada Lovelace"`. -/
theorem output_filename_and_listing_witness :
    output_filename "Ada Lovelace" = "Ada_Lovelace_farewell_card.pdf"
    ∧ output_filename "Ada Lovelace" ∈ listCards ["Ada_Lovelace_farewell_card.pdf"]
    ∧ List.Sorted (· ≤ ·) (listCards ["Ada_Lovelace_farewell_card.pdf"])
    ∧ (handlePost RenderOutcome.ok "Ada Lovelace" "bye").written
        = [output_filename (pyStrip "Ada Lovelace")] := by
  obtain ⟨h1, h2, h3, h4⟩ := output_filename_and_listing ["Ada_Lovelace_farewell_card.pdf"]
    "Ada Lovelace" (by decide)
  exact ⟨h1, h2, h3, h4 "Ada Lovelace" "bye" (by decide) (by decide) (by decide)⟩

/-! ### Claims C3, C10 -/

/-- C3 (evaluation of the code at the failing configuration): with a plaintext
`ADMIN_PASSWORD` configured, the admin route rejects even the correct
password, whatever hash the startup block produced — the route compares the
submission against the in-memory `ADMIN_PASSWORD`, which startup set to
`None`; `ADMIN_PASSWORD_HASH` and `check_password_hash` are never consulted. -/
theorem admin_plaintext_config_rejects_correct_password (gen : String → String) :
    adminPostDecision (startupConfig gen ⟨some "admin123", none⟩) "admin123" = false := rfl

/-- C10: when only the plaintext `ADMIN_PASSWORD` environment variable is set
(not pbkdf2-formatted, no `ADMIN_PASSWORD_HASH`), startup hashes it and sets
the in-memory `ADMIN_PASSWORD` to `None`, so the admin route — which compares
by plaintext equality against `ADMIN_PASSWORD` — rejects every submitted
password. -/
theorem plaintext_env_config_locks_out_admin (gen : String → String) (pw submitted : String)
    (hpw : pw ≠ "") (hplain : pyStartswith pw "pbkdf2:sha256:" = false) :
    (startupConfig gen ⟨some pw, none⟩).admin_password = none
    ∧ (startupConfig gen ⟨some pw, none⟩).admin_password_hash = some (gen pw)
    ∧ adminPostDecision (startupConfig gen ⟨some pw, none⟩) submitted = false := by
  have hcfg : startupConfig gen ⟨some pw, none⟩
      = { admin_password := none, admin_password_hash := some (gen pw) } := by
    simp only [startupConfig]
    rw [if_neg (by simp [truthy]), if_neg hpw, if_neg (by simp [hplain])]
  rw [hcfg]
  exact ⟨rfl, rfl, rfl⟩

/-- Witness for C10 at `ADMIN_PASSWORD=admin123` with the correct password
submitted. -/
theorem plaintext_env_config_locks_out_admin_witness :
    (startupConfig genHash ⟨some "admin123", none⟩).admin_password = none
    ∧ (startupConfig genHash ⟨some "admin123", none⟩).admin_password_hash
        = some (genHash "admin123")
    ∧ adminPostDecision (startupConfig genHash ⟨some "admin123", none⟩) "admin123" = false :=
  plaintext_env_config_locks_out_admin genHash "admin123" "admin123" (by decide) (by decide)

/-! ### Claim C6: path lemmas -/

theorem takeWhile_append_all {α} (p : α → Bool) : ∀ (a b : List α), (∀ x ∈ a, p x = true) →
    (a ++ b).takeWhile p = a ++ b.takeWhile p := by
  intro a
  induction a with
  | nil => intro b _; simp
  | cons x xs ih =>
    intro b h
    rw [List.cons_append, List.takeWhile_cons_of_pos (h x (by simp)),
      ih b (fun y hy => h y (by simp [hy]))]
    simp

theorem dropWhile_append_of_ex {α} {p : α → Bool} {a b : List α} (h : a.dropWhile p ≠ []) :
    (a ++ b).dropWhile p = a.dropWhile p ++ b := by
  rw [List.dropWhile_append, if_neg (by simpa using h)]

theorem dropWhile_first_false {α} {p : α → Bool} :
    ∀ {l : List α} {c : α} {cs : List α}, l.dropWhile p = c :: cs → p c = false := by
  intro l
  induction l with
  | nil => intro c cs h; exact absurd h (by simp)
  | cons x xs ih =>
    intro c cs h
    cases hx : p x
    · rw [List.dropWhile_cons_of_neg (by simp [hx])] at h
      cases h
      exact hx
    · rw [List.dropWhile_cons_of_pos hx] at h
      exact ih h

theorem dropWhile_isSuffix {α} (p : α → Bool) (l : List α) : l.dropWhile p <:+ l :=
  ⟨l.takeWhile p, List.takeWhile_append_dropWhile p l⟩

theorem suffix_ends_with {α} {s a : List α} {x : α} (h : s <:+ a ++ [x]) (hne : s ≠ []) :
    ∃ u, s = u ++ [x] := by
  obtain ⟨t, ht⟩ := h
  cases hs : s.reverse with
  | nil => exact absurd (by simpa using congrArg List.reverse hs) hne
  | cons y ys =>
    have hsy : s = ys.reverse ++ [y] := by
      have h1 := congrArg List.reverse hs
      simpa using h1
    have hlast : y = x := by
      have h1 := congrArg List.reverse ht
      rw [List.reverse_append, List.reverse_append, hs] at h1
      simp at h1
      exact h1.1
    exact ⟨ys.reverse, by rw [hsy, hlast]⟩

theorem rev_dir_slash (f : List Char) :
    ("static/cards".data ++ '/' :: f).reverse
      = f.reverse ++ ('/' :: "static/cards".data.reverse) := by
  rw [List.reverse_append]
  simp

theorem dirnameChars_dir_slash (f : List Char) (hf : ∀ c ∈ f, (c == '/') = false) :
    dirnameChars ("static/cards".data ++ '/' :: f) = "static/cards".data := by
  unfold dirnameChars
  rw [rev_dir_slash]
  have hfr : ∀ x ∈ f.reverse, (!(x == '/')) = true := by
    intro x hx
    rw [List.mem_reverse] at hx
    simp [hf x hx]
  rw [List.dropWhile_append_of_pos hfr, List.dropWhile_cons_of_neg (by decide)]
  rw [if_pos ⟨by simp, by decide⟩]
  decide

theorem dirnameChars_dir_slash_ne (f : List Char) (hmem : '/' ∈ f)
    (hstart : f.head? ≠ some '/') :
    dirnameChars ("static/cards".data ++ '/' :: f) ≠ "static/cards".data := by
  unfold dirnameChars
  rw [rev_dir_slash]
  have hds : f.reverse.dropWhile (fun c => !(c == '/')) ≠ [] := by
    intro hnil
    rw [List.dropWhile_eq_nil_iff] at hnil
    have := hnil '/' (List.mem_reverse.mpr hmem)
    simp at this
  obtain ⟨c, u, hcu⟩ : ∃ c u, f.reverse.dropWhile (fun c => !(c == '/')) = c :: u := by
    cases hdw : f.reverse.dropWhile (fun c => !(c == '/')) with
    | nil => exact absurd hdw hds
    | cons c u => exact ⟨c, u, rfl⟩
  have hc : c = '/' := by
    have h1 := dropWhile_first_false hcu
    simpa using h1
  subst hc
  rw [dropWhile_append_of_ex hds, hcu]
  rw [if_pos ⟨by simp, by
    intro hall
    rw [List.all_eq_true] at hall
    have hs := hall 's' (by
      refine List.mem_append.mpr (Or.inr ?_)
      refine List.mem_cons.mpr (Or.inr ?_)
      decide)
    simp at hs⟩]
  rw [List.cons_append, List.dropWhile_cons_of_pos (by decide)]
  by_cases hu : u.dropWhile (fun c => c == '/') = []
  · exfalso
    rw [List.dropWhile_eq_nil_iff] at hu
    have hft := List.takeWhile_append_dropWhile (fun c => !(c == '/')) f.reverse
    rw [hcu] at hft
    have hfeq : f = u.reverse ++ '/' :: (f.reverse.takeWhile fun c => !(c == '/')).reverse := by
      have h1 := congrArg List.reverse hft
      rw [List.reverse_append] at h1
      simp only [List.reverse_reverse] at h1
      refine h1.symm.trans ?_
      simp
    cases hu' : u.reverse with
    | nil =>
      rw [hu', List.nil_append] at hfeq
      rw [hfeq] at hstart
      simp at hstart
    | cons d ds =>
      have hd : d = '/' := by
        have hdu : d ∈ u := by
          rw [← List.mem_reverse, hu']
          simp
        have h2 := hu d hdu
        simpa using h2
      rw [hu', hd, List.cons_append] at hfeq
      rw [hfeq] at hstart
      simp at hstart
  · rw [dropWhile_append_of_ex hu]
    obtain ⟨c2, u2, hcu2⟩ : ∃ c2 u2, u.dropWhile (fun c => c == '/') = c2 :: u2 := by
      cases hdw : u.dropWhile (fun c => c == '/') with
      | nil => exact absurd hdw hu
      | cons c2 u2 => exact ⟨c2, u2, rfl⟩
    rw [hcu2]
    intro heq
    have hlen := congrArg List.length heq
    simp [List.length_reverse, List.length_append] at hlen

theorem dirnameChars_abs_ne (t : List Char) :
    dirnameChars ('/' :: t) ≠ "static/cards".data := by
  unfold dirnameChars
  have hrev : ('/' :: t).reverse = t.reverse ++ ['/'] := by simp
  rw [hrev]
  have hds : (t.reverse ++ ['/']).dropWhile (fun c => !(c == '/')) ≠ [] := by
    intro hnil
    rw [List.dropWhile_eq_nil_iff] at hnil
    have := hnil '/' (by simp)
    simp at this
  obtain ⟨u, hu⟩ : ∃ u, (t.reverse ++ ['/']).dropWhile (fun c => !(c == '/')) = u ++ ['/'] :=
    suffix_ends_with (dropWhile_isSuffix _ _) hds
  by_cases hcond : ((t.reverse ++ ['/']).dropWhile fun c => !(c == '/')) ≠ [] ∧
      ¬(((t.reverse ++ ['/']).dropWhile fun c => !(c == '/')).all fun c => c == '/')
  · rw [if_pos hcond]
    have hds2 : ((t.reverse ++ ['/']).dropWhile fun c => !(c == '/')).dropWhile
        (fun c => c == '/') ≠ [] := by
      intro hnil
      rw [List.dropWhile_eq_nil_iff] at hnil
      exact hcond.2 (List.all_eq_true.mpr hnil)
    rw [hu] at hds2 ⊢
    obtain ⟨u2, hu2⟩ : ∃ u2, (u ++ ['/']).dropWhile (fun c => c == '/') = u2 ++ ['/'] :=
      suffix_ends_with (dropWhile_isSuffix _ _) hds2
    rw [hu2]
    intro heq
    have h2 := congrArg List.head? heq
    rw [List.reverse_append] at h2
    rw [show ("static/cards".data).head? = some 's' from rfl] at h2
    simp at h2
  · rw [if_neg hcond]
    rw [hu]
    intro heq
    have h2 := congrArg List.head? heq
    rw [List.reverse_append] at h2
    rw [show ("static/cards".data).head? = some 's' from rfl] at h2
    simp at h2

theorem string_mk_inj {a b : List Char} (h : String.mk a = String.mk b) : a = b :=
  congrArg String.data h

theorem pyStartswith_slash_iff (f : String) :
    pyStartswith f "/" = true ↔ f.data.head? = some '/' := by
  unfold pyStartswith
  rw [show ("/" : String).data = ['/'] from rfl, List.isPrefixOf_iff_prefix]
  constructor
  · rintro ⟨t, ht⟩
    rw [← ht]
    rfl
  · intro h
    cases hd : f.data with
    | nil => rw [hd] at h; exact absurd h (by simp)
    | cons c cs =>
      rw [hd] at h
      simp at h
      subst h
      exact ⟨cs, rfl⟩

theorem cards_join_abs (f : String) (habs : pyStartswith f "/" = true) :
    posixJoin CARDS_FOLDER f = f := by
  unfold posixJoin
  rw [if_pos habs]

theorem cards_join_eq (f : String) (hstart : pyStartswith f "/" = false) :
    posixJoin CARDS_FOLDER f = CARDS_FOLDER ++ "/" ++ f := by
  unfold posixJoin
  rw [if_neg (by simp [hstart]), if_neg (by decide)]

theorem cards_append_data (f : String) :
    (CARDS_FOLDER ++ "/" ++ f).data = "static/cards".data ++ '/' :: f.data := by
  rw [string_data_append, string_data_append]
  show ("static/cards".data ++ ['/']) ++ f.data = "static/cards".data ++ '/' :: f.data
  simp

theorem dirname_cards_append (f : String) (hns : ∀ c ∈ f.data, (c == '/') = false) :
    posixDirname (CARDS_FOLDER ++ "/" ++ f) = CARDS_FOLDER := by
  unfold posixDirname
  rw [cards_append_data, dirnameChars_dir_slash f.data hns]
  rfl

theorem dirname_cards_append_ne (f : String) (hmem : '/' ∈ f.data)
    (hstart : pyStartswith f "/" = false) :
    posixDirname (CARDS_FOLDER ++ "/" ++ f) ≠ CARDS_FOLDER := by
  unfold posixDirname
  rw [cards_append_data]
  intro heq
  have hchars : dirnameChars ("static/cards".data ++ '/' :: f.data) = "static/cards".data :=
    congrArg String.data heq
  have hh : f.data.head? ≠ some '/' := by
    intro hh
    exact absurd ((pyStartswith_slash_iff f).mpr hh) (by simp [hstart])
  exact dirnameChars_dir_slash_ne f.data hmem hh hchars

theorem dirname_abs_ne (f : String) (habs : pyStartswith f "/" = true) :
    posixDirname f ≠ CARDS_FOLDER := by
  have hh := (pyStartswith_slash_iff f).mp habs
  unfold posixDirname
  intro heq
  have hchars : dirnameChars f.data = "static/cards".data := congrArg String.data heq
  cases hd : f.data with
  | nil => rw [hd] at hh; simp at hh
  | cons c t =>
    rw [hd] at hh hchars
    simp at hh
    subst hh
    exact dirnameChars_abs_ne t hchars

theorem lastSegment_cards_append (f : String) (hns : ∀ c ∈ f.data, (c == '/') = false) :
    lastSegment (CARDS_FOLDER ++ "/" ++ f) = f.data := by
  unfold lastSegment
  rw [cards_append_data, rev_dir_slash]
  rw [takeWhile_append_all _ f.data.reverse _ (by
    intro x hx
    rw [List.mem_reverse] at hx
    simp [hns x hx])]
  rw [List.takeWhile_cons_of_neg (by decide)]
  simp

theorem slashSplit_no_slash : ∀ (f : List Char), (∀ c ∈ f, (c == '/') = false) →
    slashSplit f = [f] := by
  intro f
  induction f with
  | nil => intro _; rfl
  | cons c cs ih =>
    intro h
    have hc' : c ≠ '/' := by simpa using h c (by simp)
    rw [slashSplit, ih (fun d hd => h d (by simp [hd]))]
    simp [hc']

theorem delete_card_none_of_dirname_ne (fs : FileSystem) (filename : String)
    (h : posixDirname (posixJoin CARDS_FOLDER filename) ≠ CARDS_FOLDER) :
    delete_card fs filename = none := by
  simp only [delete_card]
  rw [if_neg (fun hcond => h hcond.2.2)]

theorem delete_card_none_of_not_isFile (fs : FileSystem) (filename : String)
    (h : fs.isFile (posixJoin CARDS_FOLDER filename) = false) :
    delete_card fs filename = none := by
  simp only [delete_card]
  rw [if_neg ?_]
  rintro ⟨_, h2, _⟩
  rw [h] at h2
  simp at h2

/-- C6: a file is removed only when the joined path exists, is a regular file,
and its directory component equals the managed cards directory — and then the
removed path is exactly `CARDS_FOLDER ++ "/" ++ filename` for a slash-free
filename that is not empty, `"."`, or `".."`, i.e. an entry directly inside the
managed directory; a filename with a `".."` path component is a silent no-op, as
is a non-existent target.  `RealisticFS` is the POSIX fact that a regular file's
path never ends in a slash, `"."`, or `".."`. -/
theorem delete_card_safe (fs : FileSystem) (filename : String) (hfs : RealisticFS fs) :
    (∀ p, delete_card fs filename = some p →
        fs.pathExists p = true ∧ fs.isFile p = true ∧ posixDirname p = CARDS_FOLDER
        ∧ p = CARDS_FOLDER ++ "/" ++ filename
        ∧ (∀ c ∈ filename.data, (c == '/') = false)
        ∧ filename ≠ "" ∧ filename ≠ "." ∧ filename ≠ "..")
    ∧ (['.', '.'] ∈ slashSplit filename.data → delete_card fs filename = none)
    ∧ (fs.pathExists (posixJoin CARDS_FOLDER filename) = false →
        delete_card fs filename = none) := by
  refine ⟨?_, ?_, ?_⟩
  · intro p hp
    simp only [delete_card] at hp
    by_cases hcond : fs.pathExists (posixJoin CARDS_FOLDER filename) = true
        ∧ fs.isFile (posixJoin CARDS_FOLDER filename) = true
        ∧ posixDirname (posixJoin CARDS_FOLDER filename) = CARDS_FOLDER
    · rw [if_pos hcond] at hp
      have hpj : p = posixJoin CARDS_FOLDER filename := (Option.some.inj hp).symm
      have hstart : pyStartswith filename "/" = false := by
        cases hb : pyStartswith filename "/"
        · rfl
        · exfalso
          refine dirname_abs_ne filename hb ?_
          rw [← cards_join_abs filename hb]
          exact hcond.2.2
      have hjoin := cards_join_eq filename hstart
      have hns : ∀ c ∈ filename.data, (c == '/') = false := by
        intro c hc
        cases hb : (c == '/')
        · rfl
        · exfalso
          have hc' : c = '/' := by simpa using hb
          subst hc'
          refine dirname_cards_append_ne filename hc hstart ?_
          rw [← hjoin]
          exact hcond.2.2
      have hreal := hfs (posixJoin CARDS_FOLDER filename) hcond.2.1
      rw [hjoin, lastSegment_cards_append filename hns] at hreal
      subst hpj
      refine ⟨hcond.1, hcond.2.1, hcond.2.2, hjoin, hns, ?_, ?_, ?_⟩
      · intro h0
        exact hreal.1 (by rw [h0])
      · intro h0
        exact hreal.2.1 (by rw [h0])
      · intro h0
        exact hreal.2.2 (by rw [h0])
    · rw [if_neg hcond] at hp
      exact absurd hp (by simp)
  · intro hmem
    by_cases hsl : '/' ∈ filename.data
    · cases hb : pyStartswith filename "/"
      · apply delete_card_none_of_dirname_ne
        rw [cards_join_eq filename hb]
        exact dirname_cards_append_ne filename hsl hb
      · apply delete_card_none_of_dirname_ne
        rw [cards_join_abs filename hb]
        exact dirname_abs_ne filename hb
    · have hns : ∀ c ∈ filename.data, (c == '/') = false := by
        intro c hc
        cases hb : (c == '/')
        · rfl
        · exfalso
          have hc' : c = '/' := by simpa using hb
          subst hc'
          exact hsl hc
      rw [slashSplit_no_slash filename.data hns, List.mem_singleton] at hmem
      have hstart : pyStartswith filename "/" = false := by
        cases hb : pyStartswith filename "/"
        · rfl
        · exfalso
          have hh := (pyStartswith_slash_iff filename).mp hb
          rw [← hmem] at hh
          exact absurd hh (by decide)
      apply delete_card_none_of_not_isFile
      cases hb : fs.isFile (posixJoin CARDS_FOLDER filename)
      · rfl
      · exfalso
        have hreal := hfs _ hb
        rw [cards_join_eq filename hstart, lastSegment_cards_append filename hns] at hreal
        exact hreal.2.2 hmem.symm
  · intro hnex
    have hnc : ¬ (fs.pathExists (posixJoin CARDS_FOLDER filename) = true
        ∧ fs.isFile (posixJoin CARDS_FOLDER filename) = true
        ∧ posixDirname (posixJoin CARDS_FOLDER filename) = CARDS_FOLDER) := by
      rintro ⟨h1, _, _⟩
      rw [hnex] at h1
      simp at h1
    simp only [delete_card]
    rw [if_neg hnc]

/-- Witness for C6: deleting `".."` on a one-file filesystem is a no-op. -/
theorem delete_card_safe_witness : delete_card fsOne ".." = none := by
  have hfs : RealisticFS fsOne := by
    intro p hp
    have hp' : p = "static/cards/ok.pdf" := of_decide_eq_true hp
    subst hp'
    exact ⟨by decide, by decide, by decide⟩
  exact (delete_card_safe fsOne ".." hfs).2.1 (by decide)
